import Mathlib

/-!
# Verification of `scripts/generate_tianhe_transport_geojson.py`

Shallow embedding of the transit-GeoJSON generation script.  The script
fetches OSM elements from Overpass, and `assemble_features` flattens the
element graph into LineString route features and Point stop features.

Modelling conventions:
* Coordinates (`lon`, `lat`) are modelled as integers.  The program never
  does arithmetic on them: it only copies them out of the input and compares
  coordinate pairs for (in)equality in the dedup loop, so any type with
  decidable equality is faithful.
* Python dicts keyed by id become association lists; an insertion prepends,
  and a lookup takes the first hit, so a later insertion with the same key
  shadows an earlier one, exactly like dict assignment.
* Tag dictionaries become association lists of string pairs; `tags.get(k)`
  becomes an `Option String` lookup.
* Python's `a or b` on strings treats both `None` and `""` as falsy; this
  truthiness-based fallback is `pyOr` / `pyOrD` below.
* The script's network calls are out of scope; the pure selection logic of
  `get_tianhe_relation_id` and the query text of `build_overpass_query` are
  embedded as functions of the response data / relation id.
-/

namespace Tianhe

/-- Tag dictionary: association list, first hit wins on lookup. -/
abbrev Tags := List (String × String)

/-- `tags.get(k)` -/
def tagGet (tags : Tags) (k : String) : Option String :=
  (tags.find? (fun p => p.1 = k)).map (fun p => p.2)

/-- Python `a or b` for optional strings: `None` and `""` are falsy. -/
def pyOr (a b : Option String) : Option String :=
  match a with
  | none => b
  | some s => if s = "" then b else some s

/-- Python `a or d` where the right operand is a (truthy) default string. -/
def pyOrD (a : Option String) (d : String) : String :=
  match a with
  | none => d
  | some s => if s = "" then d else s

/-- A relation member: `{"type": ..., "ref": ..., "role": ...}`.
`role` is `m.get("role")`, absent keys giving `none`. -/
structure Member where
  type : String
  ref : Int
  role : Option String
deriving DecidableEq, Repr

/-- One raw OSM element of the Overpass response.  Elements whose `type` is
none of `node`/`way`/`relation` are ignored by the script; they are the
`other` constructor. -/
inductive Element where
  | node (id : Int) (lon lat : Int) (tags : Tags)
  | way (id : Int) (nodes : List Int) (tags : Tags)
  | relation (id : Int) (tags : Tags) (members : List Member)
  | other
deriving DecidableEq, Repr

/-- Value stored in the `nodes` dict: `(el["lon"], el["lat"], el.get("tags", {}))`. -/
structure NodeInfo where
  lon : Int
  lat : Int
  tags : Tags
deriving DecidableEq, Repr

/-- Value stored in the `ways` dict: `{"nodes": ..., "tags": ...}`. -/
structure WayInfo where
  nodes : List Int
  tags : Tags
deriving DecidableEq, Repr

/-- A relation element as consumed by the assembly loop. -/
structure RelData where
  id : Int
  tags : Tags
  members : List Member
deriving DecidableEq, Repr

/-- Dict lookup: first hit wins (entries are prepended, so the most recent
assignment shadows older ones, as in a Python dict). -/
def dictFind? {α : Type} (d : List (Int × α)) (k : Int) : Option α :=
  (d.find? (fun p => p.1 = k)).map (fun p => p.2)

/-- The `nodes` dict built by the first loop of `assemble_features`.
Later elements are placed in front so that they shadow earlier ones. -/
def nodesOf : List Element → List (Int × NodeInfo)
  | [] => []
  | Element.node i lo la t :: rest => nodesOf rest ++ [(i, ⟨lo, la, t⟩)]
  | _ :: rest => nodesOf rest

/-- The `ways` dict built by the first loop of `assemble_features`. -/
def waysOf : List Element → List (Int × WayInfo)
  | [] => []
  | Element.way i ns t :: rest => waysOf rest ++ [(i, ⟨ns, t⟩)]
  | _ :: rest => waysOf rest

/-- The `relations` list built by the first loop (input order preserved). -/
def relationsOf : List Element → List RelData
  | [] => []
  | Element.relation i t m :: rest => ⟨i, t, m⟩ :: relationsOf rest
  | _ :: rest => relationsOf rest

/-- The supported route types (line 87 of the script). -/
def ROUTE_TYPES : List String := ["bus", "tram", "subway", "light_rail"]

/-- `str.lower()`, character by character.  (The route-tag values the script
compares against are ASCII; `Char.toLower` lowercases exactly the ASCII
uppercase letters.) -/
def strLower (s : String) : String := String.mk (s.data.map Char.toLower)

/-- `route_type = tags.get("route", "").lower()` -/
def routeTypeOf (tags : Tags) : String :=
  strLower ((tagGet tags "route").getD "")

/-- `mode = "metro" if route_type in ("subway", "light_rail") else "bus"` -/
def modeOf (route_type : String) : String :=
  if ["subway", "light_rail"].contains route_type then "metro" else "bus"

/-- The stop-like role test.  Line 95 tests
`m.get("role") in ("stop","stop_exit","platform","") or m.get("role")==''`
(the second disjunct is subsumed by the `""` in the tuple) and line 141
tests membership in the same set; a missing role (`None`) never matches. -/
def stopRole (role : Option String) : Bool :=
  match role with
  | none => false
  | some r => r = "stop" || r = "stop_exit" || r = "platform" || r = ""

/-- A coordinate pair `[lon, lat]`. -/
abbrev Coord := Int × Int

/-- First member pass (lines 94-108): way members contribute the coordinates
of each of their nodes that resolves in the node table (first result);
stop-role node members that resolve are recorded with their id as the
fallback sequence `member_nodes_sequence` (second result).  The script also
collects `stops_in_rel`, which it never uses; it is omitted here. -/
def collectGeometry (nodes : List (Int × NodeInfo)) (ways : List (Int × WayInfo)) :
    List Member → List Coord × List (Int × Coord)
  | [] => ([], [])
  | m :: ms =>
    let rest := collectGeometry nodes ways ms
    let fromNode : List (Int × Coord) :=
      if m.type = "node" ∧ stopRole m.role then
        match dictFind? nodes m.ref with
        | some ni => [(m.ref, (ni.lon, ni.lat))]
        | none => []
      else []
    let fromWay : List Coord :=
      if m.type = "way" then
        match dictFind? ways m.ref with
        | some w => w.nodes.filterMap
            (fun nid => (dictFind? nodes nid).map (fun ni => (ni.lon, ni.lat)))
        | none => []
      else []
    (fromWay ++ rest.1, fromNode ++ rest.2)

/-- The dedup loop of lines 112-117: `prev` starts as `None`, each coordinate
is emitted only when it differs from the immediately preceding one, and
`prev` is updated to the current coordinate either way. -/
def dedupLoop (prev : Option Coord) : List Coord → List Coord
  | [] => []
  | c :: rest =>
    if prev ≠ some c then c :: dedupLoop (some c) rest
    else dedupLoop (some c) rest

/-- `dedup_coords` computed from `coords`. -/
def dedupCoords (cs : List Coord) : List Coord := dedupLoop none cs

/-- The `route_props` dict (lines 119-128). -/
structure RouteProps where
  mode : String
  network : Option String
  route_id : String
  name : String
  operator : Option String
  osm_relation_id : Int
  route : Option String
  colour : Option String
deriving DecidableEq, Repr

/-- Builds `route_props` exactly as lines 119-128 do. -/
def routePropsOf (mode : String) (tags : Tags) (relId : Int) : RouteProps :=
  { mode := mode
    network := pyOr (tagGet tags "network") (tagGet tags "operator")
    route_id := pyOrD (tagGet tags "ref") (toString relId)
    name := pyOrD (pyOr (tagGet tags "name") (tagGet tags "ref"))
      ("route/" ++ toString relId)
    operator := tagGet tags "operator"
    osm_relation_id := relId
    route := tagGet tags "route"
    colour := pyOr (tagGet tags "colour") (tagGet tags "line") }

/-- The properties dict of a stop feature (lines 151-159). -/
structure StopProps where
  mode : String
  stop_id : String
  stop_name : Option String
  osm_node_id : Int
  sequence : Nat
  routes : List String
  tags : Tags
deriving DecidableEq, Repr

/-- A Point feature for a stop. -/
structure StopFeature where
  coordinates : Coord
  properties : StopProps
deriving DecidableEq, Repr

/-- A LineString feature for a route. -/
structure RouteFeature where
  coordinates : List Coord
  properties : RouteProps
deriving DecidableEq, Repr

/-- A GeoJSON feature of the output collection. -/
inductive Feature where
  | line (f : RouteFeature)
  | point (f : StopFeature)
deriving DecidableEq, Repr

/-- The new stop feature created at lines 148-160. -/
def newStopFeature (mode : String) (rid : String) (nid : Int) (ni : NodeInfo)
    (seq : Nat) : StopFeature :=
  { coordinates := (ni.lon, ni.lat)
    properties :=
      { mode := mode
        stop_id := pyOrD (tagGet ni.tags "ref") (toString nid)
        stop_name := tagGet ni.tags "name"
        osm_node_id := nid
        sequence := seq
        routes := [rid]
        tags := ni.tags } }

/-- Line 146: append the current route id to the routes list of the stop
feature for node `nid`, leaving every other feature (and every other field)
unchanged. -/
def appendRouteRef (nid : Int) (rid : String) (sf : StopFeature) : StopFeature :=
  if sf.properties.osm_node_id = nid then
    { sf with properties :=
      { sf.properties with routes := sf.properties.routes ++ [rid] } }
  else sf

/-- Second member pass (lines 139-163).  The script's `seen_stop_nodes`
dict maps a node id to the (aliased, mutable) properties of the stop feature
already emitted for it; since a node id is inserted exactly when its feature
is appended, `nid in seen_stop_nodes` is equivalent to some emitted stop
feature carrying `osm_node_id = nid`, and the in-place append mutates that
feature inside `stop_features`.  Here the feature list itself is the state:
the membership test searches it, and the append rewrites the (unique)
feature with the matching id. -/
def collectStops (nodes : List (Int × NodeInfo)) (mode : String) (rid : String) :
    List Member → Nat → List StopFeature → List StopFeature
  | [], _, stops => stops
  | m :: ms, seq, stops =>
    if m.type = "node" ∧ stopRole m.role then
      match dictFind? nodes m.ref with
      | some ni =>
        let stops' :=
          if stops.any (fun sf => sf.properties.osm_node_id = m.ref) then
            stops.map (appendRouteRef m.ref rid)
          else
            stops ++ [newStopFeature mode rid m.ref ni seq]
        collectStops nodes mode rid ms (seq + 1) stops'
      | none => collectStops nodes mode rid ms seq stops
    else collectStops nodes mode rid ms seq stops

/-- Body of the per-relation loop (lines 84-163) acting on the accumulated
`(features, stop_features)` state. -/
def processRelation (nodes : List (Int × NodeInfo)) (ways : List (Int × WayInfo))
    (rel : RelData) (acc : List RouteFeature × List StopFeature) :
    List RouteFeature × List StopFeature :=
  let tags := rel.tags
  let route_type := routeTypeOf tags
  if ROUTE_TYPES.contains route_type then
    let mode := modeOf route_type
    let geo := collectGeometry nodes ways rel.members
    let coords := if geo.1 = [] ∧ geo.2 ≠ [] then geo.2.map (fun p => p.2) else geo.1
    let dedup_coords := dedupCoords coords
    let route_props := routePropsOf mode tags rel.id
    let features :=
      if dedup_coords ≠ [] then acc.1 ++ [⟨dedup_coords, route_props⟩] else acc.1
    let stop_features := collectStops nodes mode route_props.route_id rel.members 1 acc.2
    (features, stop_features)
  else acc

/-- The relation loop folded over the relation list. -/
def processRelations (nodes : List (Int × NodeInfo)) (ways : List (Int × WayInfo)) :
    List RelData → List RouteFeature × List StopFeature →
    List RouteFeature × List StopFeature
  | [], acc => acc
  | r :: rs, acc => processRelations nodes ways rs (processRelation nodes ways r acc)

/-- `assemble_features` (lines 65-166): partition the elements, run the
relation loop, and return `features + stop_features` (the feature list of
the returned FeatureCollection). -/
def assemble_features (els : List Element) : List Feature :=
  let nodes := nodesOf els
  let ways := waysOf els
  let rels := relationsOf els
  let res := processRelations nodes ways rels ([], [])
  res.1.map Feature.line ++ res.2.map Feature.point

/-- The stop features of an output feature list. -/
def stopFeats (fs : List Feature) : List StopFeature :=
  fs.filterMap (fun f => match f with | Feature.point s => some s | _ => none)

/-- The LineString coordinate lists of an output feature list. -/
def lineCoords (fs : List Feature) : List (List Coord) :=
  fs.filterMap (fun f => match f with | Feature.line r => some r.coordinates | _ => none)

/-- Whether a feature is a LineString (route) feature. -/
def isLine (f : Feature) : Bool :=
  match f with
  | Feature.line _ => true
  | Feature.point _ => false

/-- No two consecutive entries of the list are equal. -/
def noConsecDup : List Coord → Bool
  | [] => true
  | [_] => true
  | a :: b :: r => if a = b then false else noConsecDup (b :: r)

/-- A Nominatim search result, reduced to the two fields
`get_tianhe_relation_id` reads: `item.get("osm_type")` and
`item["osm_id"]` (converted with `int`). -/
structure NomItem where
  osm_type : Option String
  osm_id : Int
deriving DecidableEq, Repr

/-- `get_tianhe_relation_id` (lines 33-44), as a function of the candidate
list returned by the geocoding service.  The loop returns the id of the
first relation-typed candidate; the later check of `results[0]` can only
fire when that candidate is a relation (in which case the loop has already
returned), and the final `raise RuntimeError` becomes `none`. -/
def get_tianhe_relation_id (results : List NomItem) : Option Int :=
  match results.find? (fun item => item.osm_type = some "relation") with
  | some item => some item.osm_id
  | none =>
    match results with
    | [] => none
    | first :: _ =>
      if first.osm_type = some "relation" then some first.osm_id else none

/-- `TIMEOUT = 180  # seconds for Overpass` (line 28). -/
def TIMEOUT : Nat := 180

/-- `build_overpass_query` (lines 46-58): the f-string is the concatenation
of its literal segments with the rendered `TIMEOUT` and `area_id`. -/
def build_overpass_query (area_relation_id : Int) : String :=
  let area_id := 3600000000 + area_relation_id
  "\n    [out:json][timeout:" ++ toString TIMEOUT ++ "];\n    area("
    ++ toString area_id
    ++ ")->.searchArea;\n    (\n      relation[\"type\"=\"route\"][\"route\"~\"bus|tram|subway|light_rail\"](area.searchArea);\n    );\n    out body;\n    >;\n    out skel qt;\n    "

/-- The transport-level timeout of `fetch_overpass` (line 61):
`session.post(..., timeout=TIMEOUT+30)`. -/
def fetch_overpass_timeout : Nat := TIMEOUT + 30

/-- Number of stop features of a list carrying `osm_node_id = nid`. -/
def stopOccs (fs : List StopFeature) (nid : Int) : Nat :=
  (fs.filter (fun f => f.properties.osm_node_id = nid)).length

/-- Total length of the routes lists of the stop features for `nid`. -/
def routesLenAt (fs : List StopFeature) (nid : Int) : Nat :=
  ((fs.filter (fun f => f.properties.osm_node_id = nid)).map
    (fun f => f.properties.routes.length)).sum

/-- Whether a member is a stop-like, resolving reference to node `nid`. -/
def stopRefMatch (nodes : List (Int × NodeInfo)) (nid : Int) (m : Member) : Bool :=
  m.type = "node" && stopRole m.role && m.ref = nid
    && (dictFind? nodes m.ref).isSome

/-- Number of members of one relation that reference node `nid` with a
stop-like role and resolve in the node table (with multiplicity). -/
def memberRefCount (nodes : List (Int × NodeInfo)) (members : List Member)
    (nid : Int) : Nat :=
  (members.filter (stopRefMatch nodes nid)).length

/-- Total number of such references across the qualifying route relations. -/
def totalRefCount (nodes : List (Int × NodeInfo)) (rels : List RelData)
    (nid : Int) : Nat :=
  (rels.map (fun r => if ROUTE_TYPES.contains (routeTypeOf r.tags)
    then memberRefCount nodes r.members nid else 0)).sum

/-- Modelled from the wording of claim C1 (used only to compare against the
code's behaviour): the number of DISTINCT relations — distinct by relation
id, among qualifying route relations — that reference node `nid` with a
stop-like, resolving member. -/
def distinctStopRelCount (els : List Element) (nid : Int) : Nat :=
  ((((relationsOf els).filter (fun r => ROUTE_TYPES.contains (routeTypeOf r.tags)
      && memberRefCount (nodesOf els) r.members nid != 0)).map
    (fun r => r.id)).dedup).length

/-- `g` is stop feature `f` after zero or more later stop references were
recorded on it: the routes list is extended on the right and every other
field — coordinates, mode, stop id, stop name, node id, sequence, tags —
is unchanged. -/
def stopExtends (f g : StopFeature) : Prop :=
  g.coordinates = f.coordinates ∧
  g.properties.mode = f.properties.mode ∧
  g.properties.stop_id = f.properties.stop_id ∧
  g.properties.stop_name = f.properties.stop_name ∧
  g.properties.osm_node_id = f.properties.osm_node_id ∧
  g.properties.sequence = f.properties.sequence ∧
  g.properties.tags = f.properties.tags ∧
  ∃ ext : List String, g.properties.routes = f.properties.routes ++ ext

/-- Test elements for the end-to-end scenario of claim C3: one bus relation
"Line 1", two way members tracing [(0,0),(0,0),(1,1)], one stop member at
(0,0) with ref=S1. -/
def exC3 : List Element :=
  [ Element.node 1 0 0 [("ref", "S1")]
  , Element.node 2 1 1 []
  , Element.way 100 [1] []
  , Element.way 101 [1, 2] []
  , Element.relation 500 [("route", "bus"), ("name", "Line 1")]
      [ ⟨"way", 100, some ""⟩
      , ⟨"way", 101, some ""⟩
      , ⟨"node", 1, some "stop"⟩ ] ]

/-- Concrete loop-route input showing a non-consecutive coordinate repeat:
one way visits node 1, node 2, node 1 again. -/
def exC2 : List Element :=
  [ Element.node 1 0 0 []
  , Element.node 2 1 1 []
  , Element.way 100 [1, 2, 1] []
  , Element.relation 600 [("route", "bus")] [⟨"way", 100, none⟩] ]

/-- A concrete candidate list for the resolver: the first relation-typed
candidate is the second entry, with id 42. -/
def exC7 : List NomItem :=
  [⟨some "node", 7⟩, ⟨some "relation", 42⟩, ⟨some "relation", 99⟩]

/-- Input for claim C1: a single bus relation that references the same node
twice, once with role "stop" and once with role "platform". -/
def exC1 : List Element :=
  [ Element.node 1 0 0 []
  , Element.relation 800 [("route", "bus")]
      [⟨"node", 1, some "stop"⟩, ⟨"node", 1, some "platform"⟩] ]

/-- Input for claim C9: a subway relation introduces the stop, then a bus
relation references the same node. -/
def exC9 : List Element :=
  [ Element.node 1 0 0 [("ref", "M1")]
  , Element.relation 700 [("route", "subway")] [⟨"node", 1, some "stop"⟩]
  , Element.relation 701 [("route", "bus")] [⟨"node", 1, some "stop"⟩] ]

end Tianhe

namespace Tianhe

/-! ## Helper lemmas -/

/-- The dedup loop never emits two equal consecutive coordinates, and its
first emitted coordinate differs from the seeded `prev`. -/
theorem dedupLoop_sep : ∀ (cs : List Coord) (p : Option Coord),
    noConsecDup (p.toList ++ dedupLoop p cs) = true := by
  intro cs
  induction cs with
  | nil => intro p; cases p <;> rfl
  | cons c rest ih =>
    intro p
    by_cases h : p = some c
    · subst h
      rw [show dedupLoop (some c) (c :: rest) = dedupLoop (some c) rest from
        if_neg (by simp)]
      exact ih (some c)
    · rw [show dedupLoop p (c :: rest) = c :: dedupLoop (some c) rest from if_pos h]
      cases p with
      | none => exact ih (some c)
      | some q =>
        have hq : ¬ q = c := fun hqc => h (by rw [hqc])
        show noConsecDup (q :: c :: dedupLoop (some c) rest) = true
        rw [show noConsecDup (q :: c :: dedupLoop (some c) rest)
            = noConsecDup (c :: dedupLoop (some c) rest) from if_neg hq]
        exact ih (some c)

/-- `dedupCoords` output has no equal consecutive coordinates. -/
theorem dedupCoords_noConsecDup (cs : List Coord) :
    noConsecDup (dedupCoords cs) = true :=
  dedupLoop_sep cs none

/-- One relation step either leaves the route-feature list unchanged or
appends a single feature whose coordinates come out of `dedupCoords`. -/
theorem processRelation_fst (nodes : List (Int × NodeInfo))
    (ways : List (Int × WayInfo)) (rel : RelData)
    (acc : List RouteFeature × List StopFeature) :
    (processRelation nodes ways rel acc).1 = acc.1 ∨
    ∃ cs props, (processRelation nodes ways rel acc).1
      = acc.1 ++ [⟨dedupCoords cs, props⟩] := by
  by_cases hq : ROUTE_TYPES.contains (routeTypeOf rel.tags) = true
  · by_cases hd : dedupCoords (if (collectGeometry nodes ways rel.members).1 = []
        ∧ (collectGeometry nodes ways rel.members).2 ≠ []
        then (collectGeometry nodes ways rel.members).2.map (fun p => p.2)
        else (collectGeometry nodes ways rel.members).1) ≠ []
    · right
      refine ⟨(if (collectGeometry nodes ways rel.members).1 = []
          ∧ (collectGeometry nodes ways rel.members).2 ≠ []
          then (collectGeometry nodes ways rel.members).2.map (fun p => p.2)
          else (collectGeometry nodes ways rel.members).1),
        routePropsOf (modeOf (routeTypeOf rel.tags)) rel.tags rel.id, ?_⟩
      simp only [processRelation, hq, if_true, if_pos hd]
    · left
      simp only [processRelation, hq, if_true, if_neg hd]
  · left
    have hq' : ¬ (routeTypeOf rel.tags ∈ ROUTE_TYPES) := by simpa using hq
    simp [processRelation, hq']

/-- Every route feature produced by the relation loop is either inherited
from the accumulator or carries deduplicated coordinates. -/
theorem processRelations_fst_mem (nodes : List (Int × NodeInfo))
    (ways : List (Int × WayInfo)) :
    ∀ (rels : List RelData) (acc : List RouteFeature × List StopFeature)
      (f : RouteFeature), f ∈ (processRelations nodes ways rels acc).1 →
      f ∈ acc.1 ∨ ∃ cs, f.coordinates = dedupCoords cs := by
  intro rels
  induction rels with
  | nil => intro acc f hf; exact Or.inl hf
  | cons r rs ih =>
    intro acc f hf
    rcases ih (processRelation nodes ways r acc) f hf with h | h
    · rcases processRelation_fst nodes ways r acc with he | ⟨cs, props, he⟩
      · rw [he] at h; exact Or.inl h
      · rw [he] at h
        rcases List.mem_append.mp h with h1 | h1
        · exact Or.inl h1
        · right
          have hf1 : f = ⟨dedupCoords cs, props⟩ := by simpa using h1
          exact ⟨cs, by rw [hf1]⟩
    · exact Or.inr h

/-- A Point-only feature list yields no LineString coordinates. -/
theorem lineCoords_points (ss : List StopFeature) :
    lineCoords (ss.map Feature.point) = [] := by
  induction ss with
  | nil => rfl
  | cons s ss ih => exact ih

/-- `lineCoords` of the assembled collection is the coordinate list of the
route features produced by the relation loop. -/
theorem lineCoords_app (rs : List RouteFeature) (ss : List StopFeature) :
    lineCoords (rs.map Feature.line ++ ss.map Feature.point)
      = rs.map (fun r => r.coordinates) := by
  induction rs with
  | nil => exact lineCoords_points ss
  | cons r rs ih =>
    show r.coordinates :: lineCoords (rs.map Feature.line ++ ss.map Feature.point)
      = r.coordinates :: rs.map (fun f => f.coordinates)
    rw [ih]

/-- A Point-only feature list is sent back to its stop-feature list. -/
theorem stopFeats_points (ss : List StopFeature) :
    stopFeats (ss.map Feature.point) = ss := by
  induction ss with
  | nil => rfl
  | cons s ss ih =>
    show s :: stopFeats (ss.map Feature.point) = s :: ss
    rw [ih]

/-- `stopFeats` of the assembled collection is the stop-feature list
produced by the relation loop. -/
theorem stopFeats_app (rs : List RouteFeature) (ss : List StopFeature) :
    stopFeats (rs.map Feature.line ++ ss.map Feature.point) = ss := by
  induction rs with
  | nil => exact stopFeats_points ss
  | cons r rs ih => exact ih

/-- Leading LineStrings are all dropped by `dropWhile isLine`. -/
theorem dropWhile_lines (rs : List RouteFeature) (l : List Feature) :
    (rs.map Feature.line ++ l).dropWhile isLine = l.dropWhile isLine := by
  induction rs with
  | nil => rfl
  | cons r rs ih => exact ih

/-- A list of Point features contains no LineString. -/
theorem all_points (ss : List StopFeature) :
    ((ss.map Feature.point).all fun f => !(isLine f)) = true := by
  induction ss with
  | nil => rfl
  | cons s ss ih => exact ih

/-- Dropping leading LineStrings from a Point-only list leaves Points only. -/
theorem dropWhile_points (ss : List StopFeature) :
    (((ss.map Feature.point).dropWhile isLine).all fun f => !(isLine f)) = true := by
  cases ss with
  | nil => rfl
  | cons s ss => exact all_points (s :: ss)

/-- C3: on the one-relation scenario the output is exactly one RouteFeature
with geometry [(0,0),(1,1)] (consecutive duplicate collapsed) followed by one
StopFeature at (0,0) with stop_id "S1" and a routes list of length 1. -/
theorem C3_end_to_end :
    assemble_features exC3 =
      [ Feature.line
          { coordinates := [(0, 0), (1, 1)]
            properties :=
              { mode := "bus"
                network := none
                route_id := "500"
                name := "Line 1"
                operator := none
                osm_relation_id := 500
                route := some "bus"
                colour := none } }
      , Feature.point
          { coordinates := (0, 0)
            properties :=
              { mode := "bus"
                stop_id := "S1"
                stop_name := none
                osm_node_id := 1
                sequence := 1
                routes := ["500"]
                tags := [("ref", "S1")] } } ] := by
  rfl

/-- C4: in the feature list returned by `assemble_features`, every
RouteFeature (LineString) comes strictly before every StopFeature (Point):
once a non-LineString appears, no LineString follows. -/
theorem C4_lines_before_points (els : List Element) :
    (((assemble_features els).dropWhile isLine).all fun f => !(isLine f)) = true := by
  show ((((processRelations (nodesOf els) (waysOf els) (relationsOf els)
      ([], [])).1.map Feature.line
    ++ (processRelations (nodesOf els) (waysOf els) (relationsOf els)
      ([], [])).2.map Feature.point).dropWhile isLine).all fun f => !(isLine f)) = true
  rw [dropWhile_lines]
  exact dropWhile_points _

/-- C2: every RouteFeature geometry produced by `assemble_features` has no
two equal consecutive coordinate pairs, while non-consecutive repeats are
kept: on the loop route `exC2` the emitted geometry is
`[(0,0),(1,1),(0,0)]`, which a global-set deduplication would have cut. -/
theorem C2_consecutive_dedup :
    (∀ els, ((lineCoords (assemble_features els)).all noConsecDup) = true) ∧
    lineCoords (assemble_features exC2) = [[(0, 0), (1, 1), (0, 0)]] := by
  constructor
  · intro els
    show (lineCoords ((processRelations (nodesOf els) (waysOf els)
        (relationsOf els) ([], [])).1.map Feature.line
      ++ (processRelations (nodesOf els) (waysOf els) (relationsOf els)
        ([], [])).2.map Feature.point)).all noConsecDup = true
    rw [lineCoords_app]
    apply List.all_eq_true.mpr
    intro cs hcs
    rcases List.mem_map.mp hcs with ⟨f, hf, rfl⟩
    rcases processRelations_fst_mem (nodesOf els) (waysOf els)
        (relationsOf els) ([], []) f hf with h | ⟨cs', h⟩
    · simp at h
    · rw [h]; exact dedupCoords_noConsecDup cs'
  · rfl

/-- C7: the area resolver returns the numeric id of the first candidate
whose entity type is "relation", and it fails (returns `none`, the embedded
`RuntimeError`) exactly when the candidate list is empty or contains no
relation-typed candidate. -/
theorem C7_area_resolver (results : List NomItem) :
    (∀ item, results.find? (fun it => it.osm_type = some "relation") = some item →
      get_tianhe_relation_id results = some item.osm_id) ∧
    (get_tianhe_relation_id results = none ↔
      results = [] ∨ ∀ item ∈ results, item.osm_type ≠ some "relation") := by
  constructor
  · intro item h
    unfold get_tianhe_relation_id
    rw [h]
  · unfold get_tianhe_relation_id
    cases hf : results.find? (fun it => it.osm_type = some "relation") with
    | some item =>
      have hmem := List.mem_of_find?_eq_some hf
      have hp : item.osm_type = some "relation" := by
        have := List.find?_some hf
        exact of_decide_eq_true this
      constructor
      · intro h; exact absurd h (by simp)
      · intro h
        rcases h with h | h
        · rw [h] at hmem; exact absurd hmem (by simp)
        · exact absurd hp (h item hmem)
    | none =>
      cases results with
      | nil => simp
      | cons first rest =>
        have hall : ∀ item ∈ first :: rest, ¬ item.osm_type = some "relation" := by
          intro item hitem
          have := List.find?_eq_none.mp hf item hitem
          simpa using this
        show (if first.osm_type = some "relation" then some first.osm_id else none)
          = none ↔ _
        rw [if_neg (hall first (by simp))]
        exact iff_of_true rfl (Or.inr hall)

/-- Witness for C7 at a concrete candidate list. -/
theorem C7_area_resolver_witness : get_tianhe_relation_id exC7 = some 42 :=
  (C7_area_resolver exC7).1 ⟨some "relation", 42⟩ (by rfl)

/-- C8: the query text embeds the query-language timeout directive with the
default of 180 time units, the transport-level timeout used when submitting
the query is strictly larger, and the area id rendered into the query is
the resolved relation id offset by 3600000000. -/
theorem C8_query_timeouts (rid : Int) :
    TIMEOUT = 180 ∧
    fetch_overpass_timeout = TIMEOUT + 30 ∧
    TIMEOUT < fetch_overpass_timeout ∧
    (∃ s t : String, build_overpass_query rid =
      s ++ ("[timeout:" ++ toString TIMEOUT ++ "]") ++ t) ∧
    (∃ s t : String, build_overpass_query rid =
      s ++ ("area(" ++ toString (3600000000 + rid) ++ ")") ++ t) := by
  refine ⟨rfl, rfl, by decide, ?_, ?_⟩
  · refine ⟨"\n    [out:json]", ";\n    area(" ++ toString (3600000000 + rid)
      ++ ")->.searchArea;\n    (\n      relation[\"type\"=\"route\"][\"route\"~\"bus|tram|subway|light_rail\"](area.searchArea);\n    );\n    out body;\n    >;\n    out skel qt;\n    ", ?_⟩
    apply String.ext
    simp only [build_overpass_query, String.data_append]
    simp [List.append_assoc]
  · refine ⟨"\n    [out:json][timeout:" ++ toString TIMEOUT ++ "];\n    ",
      "->.searchArea;\n    (\n      relation[\"type\"=\"route\"][\"route\"~\"bus|tram|subway|light_rail\"](area.searchArea);\n    );\n    out body;\n    >;\n    out skel qt;\n    ", ?_⟩
    apply String.ext
    simp only [build_overpass_query, String.data_append]
    simp [List.append_assoc]

/-- C10: in every fallback chain, a tag whose value is the empty string
behaves like an absent tag: `route_id` falls back to the relation id,
`name` falls through `ref` to "route/<id>", `network` falls back to
`operator`, `colour` falls back to `line`, and a stop's `stop_id` falls
back to the node id. -/
theorem C10_empty_tag_like_absent :
    (∀ b, pyOr (some "") b = pyOr none b) ∧
    (∀ d, pyOrD (some "") d = pyOrD none d) ∧
    (∀ mode tags relId, (tagGet tags "ref" = none ∨ tagGet tags "ref" = some "") →
      (routePropsOf mode tags relId).route_id = toString relId) ∧
    (∀ mode tags relId, (tagGet tags "ref" = none ∨ tagGet tags "ref" = some "") →
      (tagGet tags "name" = none ∨ tagGet tags "name" = some "") →
      (routePropsOf mode tags relId).name = "route/" ++ toString relId) ∧
    (∀ mode tags relId, (tagGet tags "network" = none ∨ tagGet tags "network" = some "") →
      (routePropsOf mode tags relId).network = tagGet tags "operator") ∧
    (∀ mode tags relId, (tagGet tags "colour" = none ∨ tagGet tags "colour" = some "") →
      (routePropsOf mode tags relId).colour = tagGet tags "line") ∧
    (∀ mode rid nid ni seq, (tagGet ni.tags "ref" = none ∨ tagGet ni.tags "ref" = some "") →
      (newStopFeature mode rid nid ni seq).properties.stop_id = toString nid) := by
  refine ⟨?_, ?_, ?_, ?_, ?_, ?_, ?_⟩
  · intro b; rfl
  · intro d; rfl
  · intro mode tags relId h
    rcases h with h | h <;> simp [routePropsOf, pyOrD, h]
  · intro mode tags relId h1 h2
    rcases h1 with h1 | h1 <;> rcases h2 with h2 | h2 <;>
      simp [routePropsOf, pyOrD, pyOr, h1, h2]
  · intro mode tags relId h
    rcases h with h | h <;> simp [routePropsOf, pyOr, h]
  · intro mode tags relId h
    rcases h with h | h <;> simp [routePropsOf, pyOr, h]
  · intro mode rid nid ni seq h
    rcases h with h | h <;> simp [newStopFeature, pyOrD, h]

/-- Witness for C10 at concrete inputs: empty `ref` and `network` tags on a
relation, and an empty `ref` tag on a stop node. -/
theorem C10_empty_tag_like_absent_witness :
    (routePropsOf "bus" [("ref", ""), ("network", "")] 7).route_id = "7" ∧
    (routePropsOf "bus" [("ref", ""), ("network", "")] 7).network = none ∧
    (routePropsOf "bus" [("ref", ""), ("network", "")] 7).name = "route/7" ∧
    (newStopFeature "bus" "7" 5 ⟨0, 0, [("ref", "")]⟩ 1).properties.stop_id = "5" := by
  refine ⟨?_, ?_, ?_, ?_⟩
  · rw [C10_empty_tag_like_absent.2.2.1 "bus" [("ref", ""), ("network", "")] 7
      (Or.inr rfl)]
    rfl
  · rw [C10_empty_tag_like_absent.2.2.2.2.1 "bus" [("ref", ""), ("network", "")] 7
      (Or.inr rfl)]
    rfl
  · rw [C10_empty_tag_like_absent.2.2.2.1 "bus" [("ref", ""), ("network", "")] 7
      (Or.inr rfl) (Or.inl rfl)]
    rfl
  · rw [C10_empty_tag_like_absent.2.2.2.2.2.2 "bus" "7" 5 ⟨0, 0, [("ref", "")]⟩ 1
      (Or.inr rfl)]
    rfl

/-- The node table ignores element order except that later entries shadow
earlier ones: appending element lists concatenates the tables in reverse. -/
theorem nodesOf_append (a b : List Element) :
    nodesOf (a ++ b) = nodesOf b ++ nodesOf a := by
  induction a with
  | nil => simp [nodesOf]
  | cons x a ih => cases x <;> simp [nodesOf, ih, List.append_assoc]

/-- Analogue of `nodesOf_append` for the way table. -/
theorem waysOf_append (a b : List Element) :
    waysOf (a ++ b) = waysOf b ++ waysOf a := by
  induction a with
  | nil => simp [waysOf]
  | cons x a ih => cases x <;> simp [waysOf, ih, List.append_assoc]

/-- The relation list respects concatenation of element lists. -/
theorem relationsOf_append (a b : List Element) :
    relationsOf (a ++ b) = relationsOf a ++ relationsOf b := by
  induction a with
  | nil => rfl
  | cons x a ih => cases x <;> simp [relationsOf, ih]

/-- The relation loop processes a concatenation in two stages. -/
theorem processRelations_append (nodes : List (Int × NodeInfo))
    (ways : List (Int × WayInfo)) (a b : List RelData)
    (acc : List RouteFeature × List StopFeature) :
    processRelations nodes ways (a ++ b) acc
      = processRelations nodes ways b (processRelations nodes ways a acc) := by
  induction a generalizing acc with
  | nil => rfl
  | cons r rs ih => simp [processRelations, ih]

/-- A relation whose route type is not supported is skipped outright. -/
theorem processRelation_skip (nodes : List (Int × NodeInfo))
    (ways : List (Int × WayInfo)) (rel : RelData)
    (acc : List RouteFeature × List StopFeature)
    (h : ROUTE_TYPES.contains (routeTypeOf rel.tags) = false) :
    processRelation nodes ways rel acc = acc := by
  have h1 : ¬ (routeTypeOf rel.tags ∈ ROUTE_TYPES) := by
    intro hmem
    have he : ROUTE_TYPES.contains (routeTypeOf rel.tags) = true :=
      List.elem_eq_true_of_mem hmem
    rw [h] at he
    cases he
  simp [processRelation, h1]

/-- If no member resolves in the node or way tables, the geometry pass
collects nothing. -/
theorem collectGeometry_noop (nodes : List (Int × NodeInfo))
    (ways : List (Int × WayInfo)) :
    ∀ members : List Member,
    (∀ m ∈ members, (m.type = "node" → dictFind? nodes m.ref = none) ∧
      (m.type = "way" → dictFind? ways m.ref = none)) →
    collectGeometry nodes ways members = ([], []) := by
  intro members
  induction members with
  | nil => intro _; rfl
  | cons m ms ih =>
    intro h
    rcases h m (by simp) with ⟨hmn, hmw⟩
    have hrest := ih (fun x hx => h x (by simp [hx]))
    by_cases h1 : m.type = "node" ∧ stopRole m.role = true
    · have h2 : ¬ m.type = "way" := by rw [h1.1]; decide
      simp [collectGeometry, hrest, h1, h2, hmn h1.1]
    · by_cases h2 : m.type = "way"
      · simp [collectGeometry, hrest, h1, h2, hmw h2]
      · simp [collectGeometry, hrest, h1, h2]

/-- If no node member resolves in the node table, the stop pass leaves the
stop-feature list untouched. -/
theorem collectStops_noop (nodes : List (Int × NodeInfo)) (mode rid : String) :
    ∀ (members : List Member) (seq : Nat) (stops : List StopFeature),
    (∀ m ∈ members, m.type = "node" → dictFind? nodes m.ref = none) →
    collectStops nodes mode rid members seq stops = stops := by
  intro members
  induction members with
  | nil => intro seq stops _; rfl
  | cons m ms ih =>
    intro seq stops h
    have hrest := fun (sq : Nat) (st : List StopFeature) =>
      ih sq st (fun x hx => h x (by simp [hx]))
    by_cases h1 : m.type = "node" ∧ stopRole m.role = true
    · have step : collectStops nodes mode rid (m :: ms) seq stops
          = collectStops nodes mode rid ms seq stops := by
        simp [collectStops, h1, h m (by simp) h1.1]
      rw [step]; exact hrest seq stops
    · have step : collectStops nodes mode rid (m :: ms) seq stops
          = collectStops nodes mode rid ms seq stops := by
        simp [collectStops, h1]
      rw [step]; exact hrest seq stops

/-- A relation none of whose members resolve leaves the whole accumulated
state unchanged, whether or not it qualifies. -/
theorem processRelation_noop (nodes : List (Int × NodeInfo))
    (ways : List (Int × WayInfo)) (rel : RelData)
    (acc : List RouteFeature × List StopFeature)
    (hm : ∀ m ∈ rel.members, (m.type = "node" → dictFind? nodes m.ref = none) ∧
      (m.type = "way" → dictFind? ways m.ref = none)) :
    processRelation nodes ways rel acc = acc := by
  by_cases hq : ROUTE_TYPES.contains (routeTypeOf rel.tags) = true
  · have hq' : routeTypeOf rel.tags ∈ ROUTE_TYPES :=
      List.mem_of_elem_eq_true hq
    have hg := collectGeometry_noop nodes ways rel.members hm
    have hs := collectStops_noop nodes (modeOf (routeTypeOf rel.tags))
      (routePropsOf (modeOf (routeTypeOf rel.tags)) rel.tags rel.id).route_id
      rel.members 1 acc.2 (fun m hmem => (hm m hmem).1)
    simp [processRelation, hq', hg, hs, dedupCoords, dedupLoop]
  · exact processRelation_skip nodes ways rel acc (by simpa using hq)

/-- C5: a relation whose `route` tag is absent or (case-insensitively) not
one of bus/tram/subway/light_rail contributes nothing: deleting it from the
element list leaves the output of `assemble_features` unchanged. -/
theorem C5_nonroute_relation_contributes_nothing
    (pre post : List Element) (i : Int) (tags : Tags) (members : List Member)
    (h : ROUTE_TYPES.contains (routeTypeOf tags) = false) :
    assemble_features (pre ++ Element.relation i tags members :: post)
      = assemble_features (pre ++ post) := by
  have hn : nodesOf (pre ++ Element.relation i tags members :: post)
      = nodesOf (pre ++ post) := by
    rw [nodesOf_append, nodesOf_append]; rfl
  have hw : waysOf (pre ++ Element.relation i tags members :: post)
      = waysOf (pre ++ post) := by
    rw [waysOf_append, waysOf_append]; rfl
  have hr : relationsOf (pre ++ Element.relation i tags members :: post)
      = relationsOf pre ++ RelData.mk i tags members :: relationsOf post := by
    rw [relationsOf_append]; rfl
  show (processRelations (nodesOf (pre ++ Element.relation i tags members :: post))
      (waysOf (pre ++ Element.relation i tags members :: post))
      (relationsOf (pre ++ Element.relation i tags members :: post))
      ([], [])).1.map Feature.line
    ++ (processRelations (nodesOf (pre ++ Element.relation i tags members :: post))
      (waysOf (pre ++ Element.relation i tags members :: post))
      (relationsOf (pre ++ Element.relation i tags members :: post))
      ([], [])).2.map Feature.point
    = (processRelations (nodesOf (pre ++ post)) (waysOf (pre ++ post))
      (relationsOf (pre ++ post)) ([], [])).1.map Feature.line
    ++ (processRelations (nodesOf (pre ++ post)) (waysOf (pre ++ post))
      (relationsOf (pre ++ post)) ([], [])).2.map Feature.point
  rw [hn, hw, hr, relationsOf_append, processRelations_append,
    processRelations_append]
  simp only [processRelations]
  rw [processRelation_skip _ _ _ _ h]

/-- Witness for C5: a ferry relation between two bus-network elements
changes nothing. -/
theorem C5_nonroute_witness :
    assemble_features ([Element.node 1 0 0 [], Element.way 100 [1] []]
        ++ Element.relation 901 [("route", "ferry")] [⟨"way", 100, some ""⟩]
        :: [Element.relation 900 [("route", "bus")] [⟨"way", 100, some ""⟩]])
      = assemble_features ([Element.node 1 0 0 [], Element.way 100 [1] []]
        ++ [Element.relation 900 [("route", "bus")] [⟨"way", 100, some ""⟩]]) :=
  C5_nonroute_relation_contributes_nothing
    [Element.node 1 0 0 [], Element.way 100 [1] []]
    [Element.relation 900 [("route", "bus")] [⟨"way", 100, some ""⟩]]
    901 [("route", "ferry")] [⟨"way", 100, some ""⟩] (by rfl)

/-- C6: a qualifying route relation none of whose members resolve in the
node or way tables contributes zero features and does not disturb the
features of any other relation: deleting it leaves the output of
`assemble_features` unchanged. -/
theorem C6_unresolvable_members_contribute_nothing
    (pre post : List Element) (i : Int) (tags : Tags) (members : List Member)
    (_hq : ROUTE_TYPES.contains (routeTypeOf tags) = true)
    (hm : ∀ m ∈ members,
      (m.type = "node" → dictFind? (nodesOf (pre ++ post)) m.ref = none) ∧
      (m.type = "way" → dictFind? (waysOf (pre ++ post)) m.ref = none)) :
    assemble_features (pre ++ Element.relation i tags members :: post)
      = assemble_features (pre ++ post) := by
  have hn : nodesOf (pre ++ Element.relation i tags members :: post)
      = nodesOf (pre ++ post) := by
    rw [nodesOf_append, nodesOf_append]; rfl
  have hw : waysOf (pre ++ Element.relation i tags members :: post)
      = waysOf (pre ++ post) := by
    rw [waysOf_append, waysOf_append]; rfl
  have hr : relationsOf (pre ++ Element.relation i tags members :: post)
      = relationsOf pre ++ RelData.mk i tags members :: relationsOf post := by
    rw [relationsOf_append]; rfl
  show (processRelations (nodesOf (pre ++ Element.relation i tags members :: post))
      (waysOf (pre ++ Element.relation i tags members :: post))
      (relationsOf (pre ++ Element.relation i tags members :: post))
      ([], [])).1.map Feature.line
    ++ (processRelations (nodesOf (pre ++ Element.relation i tags members :: post))
      (waysOf (pre ++ Element.relation i tags members :: post))
      (relationsOf (pre ++ Element.relation i tags members :: post))
      ([], [])).2.map Feature.point
    = (processRelations (nodesOf (pre ++ post)) (waysOf (pre ++ post))
      (relationsOf (pre ++ post)) ([], [])).1.map Feature.line
    ++ (processRelations (nodesOf (pre ++ post)) (waysOf (pre ++ post))
      (relationsOf (pre ++ post)) ([], [])).2.map Feature.point
  rw [hn, hw, hr, relationsOf_append, processRelations_append,
    processRelations_append]
  simp only [processRelations]
  rw [processRelation_noop _ _ _ _ hm]

/-- Witness for C6: a bus relation whose members reference the missing node
99 and way 98 changes nothing. -/
theorem C6_unresolvable_witness :
    assemble_features ([Element.node 1 0 0 []]
        ++ Element.relation 902 [("route", "bus")]
          [⟨"node", 99, some "stop"⟩, ⟨"way", 98, some ""⟩]
        :: [Element.relation 903 [("route", "bus")] [⟨"node", 1, some "stop"⟩]])
      = assemble_features ([Element.node 1 0 0 []]
        ++ [Element.relation 903 [("route", "bus")] [⟨"node", 1, some "stop"⟩]]) :=
  C6_unresolvable_members_contribute_nothing
    [Element.node 1 0 0 []]
    [Element.relation 903 [("route", "bus")] [⟨"node", 1, some "stop"⟩]]
    902 [("route", "bus")] [⟨"node", 99, some "stop"⟩, ⟨"way", 98, some ""⟩]
    (by rfl) (by decide)

/-- `appendRouteRef`, applied to any feature, is the identity or extends the
routes list by one element; every other field is unchanged. -/
theorem appendRouteRef_extends (nid : Int) (rid : String) (f : StopFeature) :
    stopExtends f (appendRouteRef nid rid f) := by
  by_cases h : f.properties.osm_node_id = nid
  · rw [appendRouteRef, if_pos h]
    exact ⟨rfl, rfl, rfl, rfl, rfl, rfl, rfl, ⟨[rid], rfl⟩⟩
  · rw [appendRouteRef, if_neg h]
    exact ⟨rfl, rfl, rfl, rfl, rfl, rfl, rfl, ⟨[], by simp⟩⟩

/-- `stopExtends` is reflexive. -/
theorem stopExtends_refl (f : StopFeature) : stopExtends f f :=
  ⟨rfl, rfl, rfl, rfl, rfl, rfl, rfl, ⟨[], by simp⟩⟩

/-- `stopExtends` is transitive. -/
theorem stopExtends_trans (f g h : StopFeature)
    (h1 : stopExtends f g) (h2 : stopExtends g h) : stopExtends f h := by
  obtain ⟨a1, a2, a3, a4, a5, a6, a7, e1, he1⟩ := h1
  obtain ⟨b1, b2, b3, b4, b5, b6, b7, e2, he2⟩ := h2
  exact ⟨b1.trans a1, b2.trans a2, b3.trans a3, b4.trans a4, b5.trans a5,
    b6.trans a6, b7.trans a7, ⟨e1 ++ e2, by rw [he2, he1, List.append_assoc]⟩⟩

/-- Every feature already emitted survives the stop pass of one more
relation with all fields intact except the routes list, which is only ever
extended on the right. -/
theorem collectStops_extends (nodes : List (Int × NodeInfo)) (mode rid : String) :
    ∀ (members : List Member) (seq : Nat) (stops : List StopFeature)
      (f : StopFeature), f ∈ stops →
    ∃ g ∈ collectStops nodes mode rid members seq stops, stopExtends f g := by
  intro members
  induction members with
  | nil => intro seq stops f hf; exact ⟨f, hf, stopExtends_refl f⟩
  | cons m ms ih =>
    intro seq stops f hf
    by_cases h1 : m.type = "node" ∧ stopRole m.role = true
    · cases hlook : dictFind? nodes m.ref with
      | none =>
        have step : collectStops nodes mode rid (m :: ms) seq stops
            = collectStops nodes mode rid ms seq stops := by
          simp [collectStops, h1, hlook]
        rw [step]; exact ih seq stops f hf
      | some ni =>
        by_cases hseen : stops.any (fun sf => sf.properties.osm_node_id = m.ref) = true
        · have step : collectStops nodes mode rid (m :: ms) seq stops
              = collectStops nodes mode rid ms (seq + 1)
                (stops.map (appendRouteRef m.ref rid)) := by
            simp [collectStops, h1, hlook, hseen]
          rw [step]
          have hmem : appendRouteRef m.ref rid f
              ∈ stops.map (appendRouteRef m.ref rid) :=
            List.mem_map_of_mem _ hf
          obtain ⟨g, hg, hext⟩ := ih (seq + 1) _ _ hmem
          exact ⟨g, hg, stopExtends_trans f _ g (appendRouteRef_extends m.ref rid f) hext⟩
        · have step : collectStops nodes mode rid (m :: ms) seq stops
              = collectStops nodes mode rid ms (seq + 1)
                (stops ++ [newStopFeature mode rid m.ref ni seq]) := by
            simp [collectStops, h1, hlook, hseen]
          rw [step]
          exact ih (seq + 1) _ f (List.mem_append_left _ hf)
    · have step : collectStops nodes mode rid (m :: ms) seq stops
          = collectStops nodes mode rid ms seq stops := by
        simp [collectStops, h1]
      rw [step]; exact ih seq stops f hf

/-- The stop-feature component of one relation step, when the relation
qualifies. -/
theorem processRelation_snd (nodes : List (Int × NodeInfo))
    (ways : List (Int × WayInfo)) (rel : RelData)
    (acc : List RouteFeature × List StopFeature)
    (hq : ROUTE_TYPES.contains (routeTypeOf rel.tags) = true) :
    (processRelation nodes ways rel acc).2
      = collectStops nodes (modeOf (routeTypeOf rel.tags))
        (routePropsOf (modeOf (routeTypeOf rel.tags)) rel.tags rel.id).route_id
        rel.members 1 acc.2 := by
  simp [processRelation, List.mem_of_elem_eq_true hq]

/-- One relation step preserves existing stop features up to `stopExtends`. -/
theorem processRelation_extends (nodes : List (Int × NodeInfo))
    (ways : List (Int × WayInfo)) (rel : RelData)
    (acc : List RouteFeature × List StopFeature) (f : StopFeature)
    (hf : f ∈ acc.2) :
    ∃ g ∈ (processRelation nodes ways rel acc).2, stopExtends f g := by
  by_cases hq : ROUTE_TYPES.contains (routeTypeOf rel.tags) = true
  · rw [processRelation_snd nodes ways rel acc hq]
    exact collectStops_extends nodes _ _ rel.members 1 acc.2 f hf
  · rw [processRelation_skip nodes ways rel acc (by simpa using hq)]
    exact ⟨f, hf, stopExtends_refl f⟩

/-- C9: when a later stop-role member resolves to an already-seen node, the
relation loop appends to that feature's routes list and leaves every other
property — mode, stop_id, stop_name, osm_node_id, sequence, coordinates,
tags — unchanged; concretely, a stop introduced by a subway relation keeps
mode "metro" after a later bus relation references it, its routes list
gaining exactly that bus route's identifier. -/
theorem C9_later_references_append_only :
    (∀ (nodes : List (Int × NodeInfo)) (ways : List (Int × WayInfo))
      (rels : List RelData) (acc : List RouteFeature × List StopFeature)
      (f : StopFeature), f ∈ acc.2 →
      ∃ g ∈ (processRelations nodes ways rels acc).2, stopExtends f g) ∧
    stopFeats (assemble_features exC9)
      = [⟨(0, 0),
          { mode := "metro"
            stop_id := "M1"
            stop_name := none
            osm_node_id := 1
            sequence := 1
            routes := ["700", "701"]
            tags := [("ref", "M1")] }⟩] := by
  constructor
  · intro nodes ways rels
    induction rels with
    | nil => intro acc f hf; exact ⟨f, hf, stopExtends_refl f⟩
    | cons r rs ih =>
      intro acc f hf
      obtain ⟨g, hg, hext⟩ := processRelation_extends nodes ways r acc f hf
      obtain ⟨g2, hg2, hext2⟩ := ih (processRelation nodes ways r acc) g hg
      exact ⟨g2, hg2, stopExtends_trans f g g2 hext hext2⟩
  · rfl

/-- Witness for C9: one bus relation processed on top of an accumulator
already holding the metro stop for node 1. -/
theorem C9_later_references_append_only_witness :
    ∃ g ∈ (processRelations [(1, ⟨0, 0, [("ref", "M1")]⟩)] []
        [⟨701, [("route", "bus")], [⟨"node", 1, some "stop"⟩]⟩]
        ([], [newStopFeature "metro" "700" 1 ⟨0, 0, [("ref", "M1")]⟩ 1])).2,
      stopExtends (newStopFeature "metro" "700" 1 ⟨0, 0, [("ref", "M1")]⟩ 1) g :=
  C9_later_references_append_only.1 _ _ _ _ _ (by simp)

/-- `appendRouteRef` never changes a feature's node id. -/
theorem appendRouteRef_id (k : Int) (rid : String) (f : StopFeature) :
    (appendRouteRef k rid f).properties.osm_node_id
      = f.properties.osm_node_id := by
  unfold appendRouteRef
  split <;> rfl

/-- Filtering after a predicate-preserving map keeps the count. -/
theorem length_filter_map_eq {α : Type} (g : α → α) (p : α → Bool)
    (h : ∀ a, p (g a) = p a) (fs : List α) :
    (List.filter p (fs.map g)).length = (List.filter p fs).length := by
  induction fs with
  | nil => rfl
  | cons f fs ih =>
    simp only [List.map_cons, List.filter_cons, h f]
    cases hp : p f <;> simp [ih]

/-- Unfolding `stopOccs` over a cons. -/
theorem stopOccs_cons (f : StopFeature) (fs : List StopFeature) (nid : Int) :
    stopOccs (f :: fs) nid
      = (if f.properties.osm_node_id = nid then 1 else 0) + stopOccs fs nid := by
  by_cases h : f.properties.osm_node_id = nid
  · simp [stopOccs, List.filter_cons, h]
    omega
  · simp [stopOccs, List.filter_cons, h]

/-- Unfolding `routesLenAt` over a cons. -/
theorem routesLenAt_cons (f : StopFeature) (fs : List StopFeature) (nid : Int) :
    routesLenAt (f :: fs) nid
      = (if f.properties.osm_node_id = nid then f.properties.routes.length else 0)
        + routesLenAt fs nid := by
  by_cases h : f.properties.osm_node_id = nid
  · simp [routesLenAt, List.filter_cons, h]
  · simp [routesLenAt, List.filter_cons, h]

/-- The routes-append rewrite does not change how many features carry a
given node id. -/
theorem stopOccs_map (fs : List StopFeature) (k : Int) (rid : String) (nid : Int) :
    stopOccs (fs.map (appendRouteRef k rid)) nid = stopOccs fs nid :=
  length_filter_map_eq _ _ (fun a => by simp [appendRouteRef_id]) fs

/-- The routes-append rewrite adds one route entry to each feature with the
matching node id. -/
theorem routesLenAt_map_self (fs : List StopFeature) (k : Int) (rid : String) :
    routesLenAt (fs.map (appendRouteRef k rid)) k
      = routesLenAt fs k + stopOccs fs k := by
  induction fs with
  | nil => rfl
  | cons f fs ih =>
    rw [List.map_cons, routesLenAt_cons, routesLenAt_cons, stopOccs_cons,
      appendRouteRef_id]
    by_cases h : f.properties.osm_node_id = k
    · have hr : (appendRouteRef k rid f).properties.routes.length
          = f.properties.routes.length + 1 := by
        rw [appendRouteRef, if_pos h]; simp
      rw [if_pos h, if_pos h, if_pos h, hr, ih]
      omega
    · rw [if_neg h, if_neg h, if_neg h, ih]
      omega

/-- The routes-append rewrite for node `k` leaves the routes lengths of
every other node id unchanged. -/
theorem routesLenAt_map_other (fs : List StopFeature) (k : Int) (rid : String)
    (nid : Int) (h : ¬ nid = k) :
    routesLenAt (fs.map (appendRouteRef k rid)) nid = routesLenAt fs nid := by
  induction fs with
  | nil => rfl
  | cons f fs ih =>
    rw [List.map_cons, routesLenAt_cons, routesLenAt_cons, appendRouteRef_id]
    by_cases hf : f.properties.osm_node_id = nid
    · have hfk : ¬ f.properties.osm_node_id = k := fun hk => h (hf.symm.trans hk)
      have hfix : appendRouteRef k rid f = f := by rw [appendRouteRef, if_neg hfk]
      rw [hfix, ih]
    · rw [if_neg hf, if_neg hf, ih]

/-- `stopOccs` of an empty list. -/
theorem stopOccs_nil (nid : Int) : stopOccs [] nid = 0 := rfl

/-- `routesLenAt` of an empty list. -/
theorem routesLenAt_nil (nid : Int) : routesLenAt [] nid = 0 := rfl

/-- Appending one feature adds its id occurrence. -/
theorem stopOccs_append_single (fs : List StopFeature) (g : StopFeature) (nid : Int) :
    stopOccs (fs ++ [g]) nid
      = stopOccs fs nid + (if g.properties.osm_node_id = nid then 1 else 0) := by
  induction fs with
  | nil =>
    rw [List.nil_append, stopOccs_cons]
    simp [stopOccs_nil]
  | cons f fs ih =>
    rw [List.cons_append, stopOccs_cons, stopOccs_cons, ih]
    omega

/-- Appending one feature adds its routes length. -/
theorem routesLenAt_append_single (fs : List StopFeature) (g : StopFeature) (nid : Int) :
    routesLenAt (fs ++ [g]) nid
      = routesLenAt fs nid
        + (if g.properties.osm_node_id = nid then g.properties.routes.length else 0) := by
  induction fs with
  | nil =>
    rw [List.nil_append, routesLenAt_cons]
    simp [routesLenAt_nil]
  | cons f fs ih =>
    rw [List.cons_append, routesLenAt_cons, routesLenAt_cons, ih]
    omega

/-- The seen-node test of line 145 is exactly "some feature with this id
was already emitted". -/
theorem any_ne_zero (fs : List StopFeature) (nid : Int) :
    (fs.any (fun sf => sf.properties.osm_node_id = nid) = true)
      ↔ stopOccs fs nid ≠ 0 := by
  induction fs with
  | nil => simp [stopOccs]
  | cons f fs ih =>
    rw [List.any_cons, stopOccs_cons]
    by_cases h : f.properties.osm_node_id = nid
    · simp [h]
    · simp [h, ih]

/-- `memberRefCount` over a cons whose head matches. -/
theorem memberRefCount_cons_true (nodes : List (Int × NodeInfo)) (m : Member)
    (ms : List Member) (nid : Int) (h : stopRefMatch nodes nid m = true) :
    memberRefCount nodes (m :: ms) nid = memberRefCount nodes ms nid + 1 := by
  simp [memberRefCount, List.filter_cons, h]

/-- `memberRefCount` over a cons whose head does not match. -/
theorem memberRefCount_cons_false (nodes : List (Int × NodeInfo)) (m : Member)
    (ms : List Member) (nid : Int) (h : stopRefMatch nodes nid m = false) :
    memberRefCount nodes (m :: ms) nid = memberRefCount nodes ms nid := by
  simp [memberRefCount, List.filter_cons, h]

/-- The stop pass, tracked per node id: the number of features for `nid`
becomes one as soon as some member references `nid` (and stays put
otherwise), and the accumulated routes length grows by exactly the number
of matching member references. -/
theorem collectStops_count (nodes : List (Int × NodeInfo)) (mode rid : String)
    (nid : Int) :
    ∀ (members : List Member) (seq : Nat) (stops : List StopFeature),
    stopOccs stops nid ≤ 1 →
    stopOccs (collectStops nodes mode rid members seq stops) nid
        = (if memberRefCount nodes members nid = 0 then stopOccs stops nid else 1) ∧
    routesLenAt (collectStops nodes mode rid members seq stops) nid
        = routesLenAt stops nid + memberRefCount nodes members nid := by
  intro members
  induction members with
  | nil =>
    intro seq stops h
    exact ⟨by simp [collectStops, memberRefCount], by simp [collectStops, memberRefCount]⟩
  | cons m ms ih =>
    intro seq stops h
    by_cases h1 : m.type = "node" ∧ stopRole m.role = true
    · cases hlook : dictFind? nodes m.ref with
      | none =>
        have hmatch : stopRefMatch nodes nid m = false := by
          simp [stopRefMatch, hlook]
        have step : collectStops nodes mode rid (m :: ms) seq stops
            = collectStops nodes mode rid ms seq stops := by
          simp [collectStops, h1, hlook]
        rw [step, memberRefCount_cons_false nodes m ms nid hmatch]
        exact ih seq stops h
      | some ni =>
        by_cases href : m.ref = nid
        · subst href
          have hmatch : stopRefMatch nodes m.ref m = true := by
            simp [stopRefMatch, h1.1, h1.2, hlook]
          rw [memberRefCount_cons_true nodes m ms m.ref hmatch]
          by_cases hseen : stops.any (fun sf => sf.properties.osm_node_id = m.ref) = true
          · have step : collectStops nodes mode rid (m :: ms) seq stops
                = collectStops nodes mode rid ms (seq + 1)
                  (stops.map (appendRouteRef m.ref rid)) := by
              simp [collectStops, h1, hlook, hseen]
            rw [step]
            have hocc1 : stopOccs stops m.ref = 1 := by
              have := (any_ne_zero stops m.ref).mp hseen
              omega
            have hmap_occ := stopOccs_map stops m.ref rid m.ref
            have hmap_len := routesLenAt_map_self stops m.ref rid
            obtain ⟨iocc, ilen⟩ := ih (seq + 1) (stops.map (appendRouteRef m.ref rid))
              (by rw [hmap_occ]; omega)
            constructor
            · rw [iocc, hmap_occ, hocc1]
              by_cases hms : memberRefCount nodes ms m.ref = 0 <;> simp [hms]
            · rw [ilen, hmap_len, hocc1]
              omega
          · have step : collectStops nodes mode rid (m :: ms) seq stops
                = collectStops nodes mode rid ms (seq + 1)
                  (stops ++ [newStopFeature mode rid m.ref ni seq]) := by
              simp [collectStops, h1, hlook, hseen]
            rw [step]
            have hocc0 : stopOccs stops m.ref = 0 := by
              have hnot : ¬ stopOccs stops m.ref ≠ 0 :=
                fun hne => hseen ((any_ne_zero stops m.ref).mpr hne)
              omega
            have hid : (newStopFeature mode rid m.ref ni seq).properties.osm_node_id
                = m.ref := rfl
            have happ_occ : stopOccs (stops ++ [newStopFeature mode rid m.ref ni seq]) m.ref
                = stopOccs stops m.ref + 1 := by
              rw [stopOccs_append_single, hid]
              simp
            have happ_len : routesLenAt (stops ++ [newStopFeature mode rid m.ref ni seq]) m.ref
                = routesLenAt stops m.ref + 1 := by
              rw [routesLenAt_append_single, hid]
              simp [newStopFeature]
            obtain ⟨iocc, ilen⟩ := ih (seq + 1)
              (stops ++ [newStopFeature mode rid m.ref ni seq])
              (by rw [happ_occ, hocc0])
            constructor
            · rw [iocc, happ_occ, hocc0]
              by_cases hms : memberRefCount nodes ms m.ref = 0 <;> simp [hms]
            · rw [ilen, happ_len]
              omega
        · have hmatch : stopRefMatch nodes nid m = false := by
            simp [stopRefMatch, href]
          rw [memberRefCount_cons_false nodes m ms nid hmatch]
          by_cases hseen : stops.any (fun sf => sf.properties.osm_node_id = m.ref) = true
          · have step : collectStops nodes mode rid (m :: ms) seq stops
                = collectStops nodes mode rid ms (seq + 1)
                  (stops.map (appendRouteRef m.ref rid)) := by
              simp [collectStops, h1, hlook, hseen]
            rw [step]
            have hmap_occ := stopOccs_map stops m.ref rid nid
            have hmap_len := routesLenAt_map_other stops m.ref rid nid
              (fun hx => href hx.symm)
            obtain ⟨iocc, ilen⟩ := ih (seq + 1) (stops.map (appendRouteRef m.ref rid))
              (by rw [hmap_occ]; exact h)
            exact ⟨by rw [iocc, hmap_occ], by rw [ilen, hmap_len]⟩
          · have step : collectStops nodes mode rid (m :: ms) seq stops
                = collectStops nodes mode rid ms (seq + 1)
                  (stops ++ [newStopFeature mode rid m.ref ni seq]) := by
              simp [collectStops, h1, hlook, hseen]
            rw [step]
            have hidne : ¬ (newStopFeature mode rid m.ref ni seq).properties.osm_node_id
                = nid := href
            have happ_occ : stopOccs (stops ++ [newStopFeature mode rid m.ref ni seq]) nid
                = stopOccs stops nid := by
              rw [stopOccs_append_single, if_neg hidne]
              omega
            have happ_len : routesLenAt (stops ++ [newStopFeature mode rid m.ref ni seq]) nid
                = routesLenAt stops nid := by
              rw [routesLenAt_append_single, if_neg hidne]
              omega
            obtain ⟨iocc, ilen⟩ := ih (seq + 1)
              (stops ++ [newStopFeature mode rid m.ref ni seq])
              (by rw [happ_occ]; exact h)
            exact ⟨by rw [iocc, happ_occ], by rw [ilen, happ_len]⟩
    · have hmatch : stopRefMatch nodes nid m = false := by
        by_cases hn : m.type = "node"
        · cases hsr : stopRole m.role with
          | true => exact absurd ⟨hn, hsr⟩ h1
          | false => simp [stopRefMatch, hsr]
        · simp [stopRefMatch, hn]
      have step : collectStops nodes mode rid (m :: ms) seq stops
          = collectStops nodes mode rid ms seq stops := by
        simp [collectStops, h1]
      rw [step, memberRefCount_cons_false nodes m ms nid hmatch]
      exact ih seq stops h

/-- The relation loop, tracked per node id: one stop feature exists exactly
when some qualifying relation references the node, and its accumulated
routes length is the total number of matching references. -/
theorem processRelations_count (nodes : List (Int × NodeInfo))
    (ways : List (Int × WayInfo)) (nid : Int) :
    ∀ (rels : List RelData) (acc : List RouteFeature × List StopFeature),
    stopOccs acc.2 nid ≤ 1 →
    stopOccs (processRelations nodes ways rels acc).2 nid
        = (if totalRefCount nodes rels nid = 0 then stopOccs acc.2 nid else 1) ∧
    routesLenAt (processRelations nodes ways rels acc).2 nid
        = routesLenAt acc.2 nid + totalRefCount nodes rels nid := by
  intro rels
  induction rels with
  | nil =>
    intro acc h
    exact ⟨by simp [processRelations, totalRefCount],
      by simp [processRelations, totalRefCount]⟩
  | cons r rs ih =>
    intro acc h
    rw [show processRelations nodes ways (r :: rs) acc
      = processRelations nodes ways rs (processRelation nodes ways r acc) from rfl]
    by_cases hq : ROUTE_TYPES.contains (routeTypeOf r.tags) = true
    · have hsnd := processRelation_snd nodes ways r acc hq
      obtain ⟨cocc, clen⟩ := collectStops_count nodes (modeOf (routeTypeOf r.tags))
        (routePropsOf (modeOf (routeTypeOf r.tags)) r.tags r.id).route_id nid
        r.members 1 acc.2 h
      have hocc2 : stopOccs (processRelation nodes ways r acc).2 nid
          = (if memberRefCount nodes r.members nid = 0
            then stopOccs acc.2 nid else 1) := by
        rw [hsnd]; exact cocc
      have hlen2 : routesLenAt (processRelation nodes ways r acc).2 nid
          = routesLenAt acc.2 nid + memberRefCount nodes r.members nid := by
        rw [hsnd]; exact clen
      have hle : stopOccs (processRelation nodes ways r acc).2 nid ≤ 1 := by
        rw [hocc2]; split <;> omega
      obtain ⟨iocc, ilen⟩ := ih (processRelation nodes ways r acc) hle
      have htot : totalRefCount nodes (r :: rs) nid
          = memberRefCount nodes r.members nid + totalRefCount nodes rs nid := by
        simp [totalRefCount, List.mem_of_elem_eq_true hq]
      constructor
      · rw [iocc, hocc2, htot]
        by_cases h1 : memberRefCount nodes r.members nid = 0 <;>
          by_cases h2 : totalRefCount nodes rs nid = 0 <;>
          simp [h1, h2]
      · rw [ilen, hlen2, htot]
        omega
    · have hqf : ROUTE_TYPES.contains (routeTypeOf r.tags) = false := by
        simpa using hq
      have hnm : ¬ routeTypeOf r.tags ∈ ROUTE_TYPES := by
        intro hmem
        have he : ROUTE_TYPES.contains (routeTypeOf r.tags) = true :=
          List.elem_eq_true_of_mem hmem
        rw [hqf] at he
        cases he
      have htot : totalRefCount nodes (r :: rs) nid = totalRefCount nodes rs nid := by
        simp [totalRefCount, hnm]
      rw [processRelation_skip nodes ways r acc hqf, htot]
      exact ih acc h

/-- C1 (amended): for every node id referenced at least once with a
stop-like, resolving role by a qualifying relation, exactly one StopFeature
with that `osm_node_id` appears in the output of `assemble_features`, and
its routes list has length equal to the TOTAL number of such member
references, counted with multiplicity, across all qualifying relations
(not the number of distinct referencing relations). -/
theorem C1_one_stop_total_refs (els : List Element) (nid : Int)
    (h : totalRefCount (nodesOf els) (relationsOf els) nid ≠ 0) :
    stopOccs (stopFeats (assemble_features els)) nid = 1 ∧
    ∀ f ∈ stopFeats (assemble_features els), f.properties.osm_node_id = nid →
      f.properties.routes.length
        = totalRefCount (nodesOf els) (relationsOf els) nid := by
  have hb : stopFeats (assemble_features els)
      = (processRelations (nodesOf els) (waysOf els) (relationsOf els)
        ([], [])).2 := by
    show stopFeats ((processRelations (nodesOf els) (waysOf els)
        (relationsOf els) ([], [])).1.map Feature.line
      ++ (processRelations (nodesOf els) (waysOf els) (relationsOf els)
        ([], [])).2.map Feature.point) = _
    exact stopFeats_app _ _
  obtain ⟨hocc, hlen⟩ := processRelations_count (nodesOf els) (waysOf els) nid
    (relationsOf els) ([], []) (by simp [stopOccs])
  rw [if_neg h] at hocc
  rw [hb]
  refine ⟨hocc, ?_⟩
  intro f hf hfid
  have hfil : ((processRelations (nodesOf els) (waysOf els) (relationsOf els)
      ([], [])).2.filter (fun g => g.properties.osm_node_id = nid)).length = 1 :=
    hocc
  obtain ⟨f0, hf0⟩ := List.length_eq_one.mp hfil
  have hmemf : f ∈ (processRelations (nodesOf els) (waysOf els) (relationsOf els)
      ([], [])).2.filter (fun g => g.properties.osm_node_id = nid) :=
    List.mem_filter.mpr ⟨hf, by simpa using hfid⟩
  rw [hf0] at hmemf
  have hffe : f = f0 := by simpa using hmemf
  have hsum : routesLenAt ((processRelations (nodesOf els) (waysOf els)
      (relationsOf els) ([], [])).2) nid = f0.properties.routes.length := by
    unfold routesLenAt
    rw [hf0]
    simp
  rw [hlen] at hsum
  rw [hffe]
  rw [show routesLenAt (([], []) :
      List RouteFeature × List StopFeature).2 nid = 0 from rfl] at hsum
  omega

/-- Counterexample to C1 as stated: in `exC1` a single bus relation
references node 1 twice (roles "stop" and "platform"), so the unique
StopFeature's routes list has length 2 while only one distinct relation
references the node. -/
theorem C1_counterexample :
    stopOccs (stopFeats (assemble_features exC1)) 1 = 1 ∧
    routesLenAt (stopFeats (assemble_features exC1)) 1 = 2 ∧
    distinctStopRelCount exC1 1 = 1 ∧
    ¬ routesLenAt (stopFeats (assemble_features exC1)) 1
        = distinctStopRelCount exC1 1 := by
  refine ⟨rfl, rfl, rfl, ?_⟩
  intro hcontra
  rw [show routesLenAt (stopFeats (assemble_features exC1)) 1 = 2 from rfl,
    show distinctStopRelCount exC1 1 = 1 from rfl] at hcontra
  cases hcontra

/-- Witness for the amended C1 on the concrete input `exC1`, where the
total reference count is 2. -/
theorem C1_one_stop_total_refs_witness :
    stopOccs (stopFeats (assemble_features exC1)) 1 = 1 ∧
    ∀ f ∈ stopFeats (assemble_features exC1), f.properties.osm_node_id = 1 →
      f.properties.routes.length
        = totalRefCount (nodesOf exC1) (relationsOf exC1) 1 :=
  C1_one_stop_total_refs exC1 1 (by decide)

end Tianhe
